import Mathlib

/-!
Shallow embedding of the delayed priority queue in `src/queue/mod.rs`
(`Message`, `impl Ord for Message`, `Queue` and its operations
`push` / `pop` / `pop_batch` / `acknowledge` / `retry` /
`push_to_dead_letter`).

Modelling conventions:
- `tokio::time::Instant` is modelled as a `Nat` count of monotonic clock
  ticks; one tick is one second (the code builds all durations with
  `Duration::from_secs`).
- The `u8` fields (`priority`, `retry_count`, `max_retries`) and the `u64`
  field `id` are modelled as `Nat`; where a claim ranges over the machine
  domain, the bound (`< 256`) appears as an explicit hypothesis.  On the
  guarded retry path `retry_count < max_retries ≤ 255` holds, so the `u8`
  increment `retry_count += 1` cannot wrap and plain `Nat` successor is
  exact on that domain.
- `2u64.pow(..)` is modelled with an explicit `% 2 ^ 64` reduction, the
  release-mode wrapping semantics of Rust integer overflow.
- `std::collections::BinaryHeap` is modelled as the multiset of its
  elements (a `List Message`); `peek`/`pop` select a maximal element with
  respect to the `Ord` implementation (`msgCmp`), which is exactly the
  heap's contract.  The choice among `Ord`-equal elements is unspecified
  in Rust; the model makes one deterministic choice.
- Every fallible Rust signature returns `Result<_, QueueError>`; the only
  error `QueueError::LockError` is never constructed (the `tokio` mutex
  lock is infallible), so each `*R` wrapper returns `Except.ok` of the
  pure state transformer, mirroring the source.
- `retry`'s `sleep(backoff_delay).await` is modelled by time passing: the
  function also returns `return_time`, the instant at which the call
  resolves, and `Instant::now()` after the sleep is `now + backoff_delay`.
-/

/-- `Message` (src/queue/mod.rs lines 13-27). -/
structure Message where
  id : Nat
  content : String
  priority : Nat
  available_at : Nat
  retry_count : Nat
  max_retries : Nat
deriving DecidableEq, Repr

/-- `impl Ord for Message` (src/queue/mod.rs lines 30-38):
compare `available_at` (reversed, so an earlier instant is `gt`), then on
equal instants `other.priority.cmp(&self.priority)`. -/
def msgCmp (self other : Message) : Ordering :=
  match compare self.available_at other.available_at with
  | Ordering.eq => compare other.priority self.priority
  | other_order => other_order.swap

/-- `QueueError` (src/queue/mod.rs lines 54-58). -/
inductive QueueError where
  | LockError
deriving DecidableEq, Repr

/-- `Queue` (src/queue/mod.rs lines 64-67): the `BinaryHeap<Message>` as the
multiset of its elements. -/
structure Queue where
  messages : List Message
deriving DecidableEq, Repr

/-- Selection of a maximal element w.r.t. `msgCmp` from the non-empty heap
`m :: ms`: the element together with the remaining ones. -/
def heapPopCons (m : Message) : List Message → Message × List Message
  | [] => (m, [])
  | x :: xs =>
    if msgCmp (heapPopCons x xs).1 m = Ordering.gt then
      ((heapPopCons x xs).1, m :: (heapPopCons x xs).2)
    else (m, x :: xs)

/-- `BinaryHeap::pop`: removes and returns a maximal element w.r.t. `msgCmp`
(`none` on the empty heap), together with the remaining elements. -/
def heapPop : List Message → Option (Message × List Message)
  | [] => none
  | m :: ms => some (heapPopCons m ms)

/-- `BinaryHeap::peek`: the element `BinaryHeap::pop` would remove. -/
def heapPeek (l : List Message) : Option Message :=
  (heapPop l).map Prod.fst

/-- `Queue::push` (src/queue/mod.rs lines 105-118): overwrite `available_at`
with `now + delay` and insert. -/
def Queue.push (q : Queue) (message : Message) (delay : Nat) (now : Nat) : Queue :=
  ⟨{ message with available_at := now + delay } :: q.messages⟩

/-- `Queue::push` with its `Result<(), QueueError>` envelope; the lock is
infallible, so the result is always `Ok`. -/
def Queue.pushR (q : Queue) (message : Message) (delay : Nat) (now : Nat) :
    Except QueueError Queue :=
  Except.ok (q.push message delay now)

/-- `Queue::pop` (src/queue/mod.rs lines 140-156): peek the top; if its
`available_at` has passed, pop and return it, otherwise return `None` and
leave the heap untouched. -/
def Queue.pop (q : Queue) (now : Nat) : Option Message × Queue :=
  match heapPop q.messages with
  | some (top_message, rest) =>
    if top_message.available_at ≤ now then (some top_message, ⟨rest⟩) else (none, q)
  | none => (none, q)

/-- `Queue::pop` with its `Result` envelope (always `Ok`). -/
def Queue.popR (q : Queue) (now : Nat) : Except QueueError (Option Message × Queue) :=
  Except.ok (q.pop now)

/-- `Queue::pop_batch` (src/queue/mod.rs lines 183-209): repeat the `pop`
decision while the batch is short of `batch_size`, stopping at the first
absent or not-yet-ready top element. -/
def Queue.pop_batch : Queue → Nat → Nat → List Message × Queue
  | q, 0, _ => ([], q)
  | q, batch_size + 1, now =>
    match heapPop q.messages with
    | some (top_message, rest) =>
      if top_message.available_at ≤ now then
        let r := Queue.pop_batch ⟨rest⟩ batch_size now
        (top_message :: r.1, r.2)
      else ([], q)
    | none => ([], q)

/-- `Queue::pop_batch` with its `Result` envelope (always `Ok`). -/
def Queue.pop_batchR (q : Queue) (batch_size : Nat) (now : Nat) :
    Except QueueError (List Message × Queue) :=
  Except.ok (q.pop_batch batch_size now)

/-- `Queue::acknowledge` (src/queue/mod.rs lines 242-248):
`retain(|message| message.id != message_id)`. -/
def Queue.acknowledge (q : Queue) (message_id : Nat) : Queue :=
  ⟨q.messages.filter (fun message => message.id != message_id)⟩

/-- `Queue::acknowledge` with its `Result` envelope (always `Ok`). -/
def Queue.acknowledgeR (q : Queue) (message_id : Nat) : Except QueueError Queue :=
  Except.ok (q.acknowledge message_id)

/-- Result of a `Queue::retry` call: the queue afterwards, the message handed
to the dead-letter sink (if any), and the instant at which the call resolves
(after its `sleep`). -/
structure RetryOutcome where
  queue : Queue
  dead_letter : Option Message
  return_time : Nat
deriving DecidableEq, Repr

/-- `Queue::retry` (src/queue/mod.rs lines 259-283).  If
`retry_count >= max_retries`, hand the message to `push_to_dead_letter` and
return immediately.  Otherwise increment `retry_count`, compute
`backoff_delay = 2u64.pow(retry_count)` seconds (64-bit wrapping), sleep for
`backoff_delay` (so the call resolves at `now + backoff_delay`), and re-insert
the message with `available_at = Instant::now() + backoff_delay`, i.e. the
wake-up instant plus the backoff again. -/
def Queue.retry (q : Queue) (message : Message) (now : Nat) : RetryOutcome :=
  if message.retry_count ≥ message.max_retries then
    { queue := q, dead_letter := some message, return_time := now }
  else
    let retry_count := message.retry_count + 1
    let backoff_delay := 2 ^ retry_count % 2 ^ 64
    let new_available_at := now + backoff_delay + backoff_delay
    let retry_message :=
      { message with retry_count := retry_count, available_at := new_available_at }
    { queue := ⟨retry_message :: q.messages⟩, dead_letter := none,
      return_time := now + backoff_delay }

/-- `Queue::retry` with its `Result<(), QueueError>` envelope: both branches
end in `Ok(())`, so the call always succeeds. -/
def Queue.retryR (q : Queue) (message : Message) (now : Nat) :
    Except QueueError RetryOutcome :=
  Except.ok (q.retry message now)

/-- `Queue::push_to_dead_letter` (src/queue/mod.rs lines 294-298): logs the
message and returns `Ok(())`; the heap is not touched. -/
def Queue.push_to_dead_letter (q : Queue) (_message : Message) :
    Except QueueError Queue :=
  Except.ok q

/-- Modelled from the spec: "all of which would individually have been
returned by sequential `pop` calls in the same relative order" — the sequence
of messages that `n` successive `Queue::pop` calls return (a `pop` that
returns `None` leaves the queue unchanged, so the collection stops there). -/
def Queue.pops : Queue → Nat → Nat → List Message × Queue
  | q, 0, _ => ([], q)
  | q, n + 1, now =>
    match q.pop now with
    | (some m, q') =>
      let r := Queue.pops q' n now
      (m :: r.1, r.2)
    | (none, q') => ([], q')


/-! ### The comparator, characterised arithmetically -/

/-- `msgCmp a b = gt` (so `a` sits above `b` in the max-heap) exactly when `a`
has the earlier `available_at`, or the instants tie and `a` has the *lower*
priority (the tie arm is `other.priority.cmp(&self.priority)`). -/
theorem msgCmp_eq_gt_iff (a b : Message) :
    msgCmp a b = Ordering.gt ↔
      a.available_at < b.available_at ∨
        (a.available_at = b.available_at ∧ a.priority < b.priority) := by
  unfold msgCmp
  cases h : compare a.available_at b.available_at with
  | lt =>
    have hlt := Nat.compare_eq_lt.mp h
    constructor
    · intro _
      exact Or.inl hlt
    · intro _
      rfl
  | eq =>
    have heq := Nat.compare_eq_eq.mp h
    rw [Nat.compare_eq_gt]
    omega
  | gt =>
    have hgt := Nat.compare_eq_gt.mp h
    show Ordering.lt = Ordering.gt ↔ _
    constructor
    · intro hc
      cases hc
    · intro hor
      exact absurd hor (by omega)

/-! ### Heap-model lemmas -/

theorem heapPopCons_perm (m : Message) (ms : List Message) :
    (m :: ms).Perm ((heapPopCons m ms).1 :: (heapPopCons m ms).2) := by
  induction ms generalizing m with
  | nil => simp [heapPopCons]
  | cons x xs ih =>
    simp only [heapPopCons]
    by_cases hc : msgCmp (heapPopCons x xs).1 m = Ordering.gt
    · rw [if_pos hc]
      exact ((ih x).cons m).trans (List.Perm.swap _ _ _)
    · rw [if_neg hc]

/-- The element selected by `heapPopCons` is maximal for `msgCmp`: no element
of the heap compares strictly greater. -/
theorem heapPopCons_max (m : Message) (ms : List Message) :
    ∀ x ∈ m :: ms, ¬ msgCmp x (heapPopCons m ms).1 = Ordering.gt := by
  induction ms generalizing m with
  | nil =>
    intro x hx
    simp only [List.mem_singleton] at hx
    subst hx
    simp only [heapPopCons]
    rw [msgCmp_eq_gt_iff]
    omega
  | cons y ys ih =>
    intro x hx
    simp only [heapPopCons]
    by_cases hc : msgCmp (heapPopCons y ys).1 m = Ordering.gt
    · rw [if_pos hc]
      simp only
      rcases List.mem_cons.mp hx with rfl | hx'
      · rw [msgCmp_eq_gt_iff] at hc ⊢
        omega
      · exact ih y x hx'
    · rw [if_neg hc]
      simp only
      rcases List.mem_cons.mp hx with rfl | hx'
      · rw [msgCmp_eq_gt_iff]
        omega
      · have h1 := ih y x hx'
        rw [msgCmp_eq_gt_iff] at h1 hc ⊢
        omega

theorem heapPop_eq_none_iff (l : List Message) : heapPop l = none ↔ l = [] := by
  cases l <;> simp [heapPop]

theorem heapPop_perm {l : List Message} {m : Message} {r : List Message}
    (h : heapPop l = some (m, r)) : l.Perm (m :: r) := by
  cases l with
  | nil => simp [heapPop] at h
  | cons y ys =>
    simp only [heapPop, Option.some.injEq] at h
    have hperm := heapPopCons_perm y ys
    rw [h] at hperm
    exact hperm

theorem heapPop_mem {l : List Message} {m : Message} {r : List Message}
    (h : heapPop l = some (m, r)) : m ∈ l :=
  (heapPop_perm h).mem_iff.mpr (List.mem_cons_self m r)

theorem heapPop_rest_subset {l : List Message} {m : Message} {r : List Message}
    (h : heapPop l = some (m, r)) : ∀ x ∈ r, x ∈ l := by
  intro x hx
  exact (heapPop_perm h).mem_iff.mpr (List.mem_cons_of_mem m hx)

/-- The element returned by `heapPop` is maximal for `msgCmp`. -/
theorem heapPop_max {l : List Message} {m : Message} {r : List Message}
    (h : heapPop l = some (m, r)) : ∀ x ∈ l, ¬ msgCmp x m = Ordering.gt := by
  cases l with
  | nil => simp [heapPop] at h
  | cons y ys =>
    simp only [heapPop, Option.some.injEq] at h
    have hmax := heapPopCons_max y ys
    rw [h] at hmax
    exact hmax

/-- The `heapPop` element has the minimal `available_at` of the whole heap:
the primary (reversed) sort key puts the earliest instant on top. -/
theorem heapPop_min_available {l : List Message} {m : Message} {r : List Message}
    (h : heapPop l = some (m, r)) : ∀ x ∈ l, m.available_at ≤ x.available_at := by
  intro x hx
  have hmax := heapPop_max h x hx
  rw [msgCmp_eq_gt_iff] at hmax
  omega

/-! ### Unfolding equations for the queue operations -/

theorem pop_of_empty {q : Queue} {now : Nat} (hp : heapPop q.messages = none) :
    q.pop now = (none, q) := by
  unfold Queue.pop
  rw [hp]

theorem pop_of_top_ready {q : Queue} {now : Nat} {t : Message} {rest : List Message}
    (hp : heapPop q.messages = some (t, rest)) (hr : t.available_at ≤ now) :
    q.pop now = (some t, ⟨rest⟩) := by
  unfold Queue.pop
  rw [hp]
  simp [hr]

theorem pop_of_top_not_ready {q : Queue} {now : Nat} {t : Message} {rest : List Message}
    (hp : heapPop q.messages = some (t, rest)) (hr : ¬ t.available_at ≤ now) :
    q.pop now = (none, q) := by
  unfold Queue.pop
  rw [hp]
  simp [hr]

theorem pop_batch_zero (q : Queue) (now : Nat) : q.pop_batch 0 now = ([], q) := rfl

theorem pop_batch_of_empty {q : Queue} (hp : heapPop q.messages = none)
    (n now : Nat) : q.pop_batch (n + 1) now = ([], q) := by
  unfold Queue.pop_batch
  rw [hp]

theorem pop_batch_of_top_ready {q : Queue} {now : Nat} {t : Message}
    {rest : List Message} (hp : heapPop q.messages = some (t, rest))
    (hr : t.available_at ≤ now) (n : Nat) :
    q.pop_batch (n + 1) now =
      (t :: (Queue.pop_batch ⟨rest⟩ n now).1, (Queue.pop_batch ⟨rest⟩ n now).2) := by
  simp only [Queue.pop_batch]
  rw [hp]
  simp only [hr, if_true]

theorem pop_batch_of_top_not_ready {q : Queue} {now : Nat} {t : Message}
    {rest : List Message} (hp : heapPop q.messages = some (t, rest))
    (hr : ¬ t.available_at ≤ now) (n : Nat) :
    q.pop_batch (n + 1) now = ([], q) := by
  unfold Queue.pop_batch
  rw [hp]
  simp [hr]

theorem pops_zero (q : Queue) (now : Nat) : Queue.pops q 0 now = ([], q) := rfl

theorem pops_succ_some {q q' : Queue} {now : Nat} {m : Message}
    (h : q.pop now = (some m, q')) (n : Nat) :
    Queue.pops q (n + 1) now =
      (m :: (Queue.pops q' n now).1, (Queue.pops q' n now).2) := by
  simp only [Queue.pops]
  rw [h]

theorem pops_succ_none {q q' : Queue} {now : Nat}
    (h : q.pop now = (none, q')) (n : Nat) :
    Queue.pops q (n + 1) now = ([], q') := by
  unfold Queue.pops
  rw [h]

/-! ### Derived facts about `pop`, `pop_batch` and `pops` -/

/-- If `pop` returns a message, it is the heap top (with the remaining heap as
the new state) and it is ready. -/
theorem pop_elim {q : Queue} {now : Nat} {m : Message}
    (h : (q.pop now).1 = some m) :
    heapPop q.messages = some (m, (q.pop now).2.messages) ∧ m.available_at ≤ now := by
  cases hp : heapPop q.messages with
  | none =>
    rw [pop_of_empty hp] at h
    cases h
  | some p =>
    obtain ⟨t, rest⟩ := p
    by_cases hr : t.available_at ≤ now
    · rw [pop_of_top_ready hp hr] at h
      simp only [Option.some.injEq] at h
      subst h
      rw [pop_of_top_ready hp hr]
      exact ⟨rfl, hr⟩
    · rw [pop_of_top_not_ready hp hr] at h
      cases h

theorem pop_mem {q : Queue} {now : Nat} {m : Message}
    (h : (q.pop now).1 = some m) : m ∈ q.messages :=
  heapPop_mem (pop_elim h).1

theorem pop_some_ready {q : Queue} {now : Nat} {m : Message}
    (h : (q.pop now).1 = some m) : m.available_at ≤ now :=
  (pop_elim h).2

theorem pop_rest_mem {q : Queue} {now : Nat} {x : Message}
    (h : x ∈ (q.pop now).2.messages) : x ∈ q.messages := by
  cases hp : heapPop q.messages with
  | none =>
    rw [pop_of_empty hp] at h
    exact h
  | some p =>
    obtain ⟨t, rest⟩ := p
    by_cases hr : t.available_at ≤ now
    · rw [pop_of_top_ready hp hr] at h
      exact heapPop_rest_subset hp x h
    · rw [pop_of_top_not_ready hp hr] at h
      exact h

theorem pop_batch_mem : ∀ (n : Nat) (q : Queue) (now : Nat) (x : Message),
    x ∈ (q.pop_batch n now).1 → x ∈ q.messages := by
  intro n
  induction n with
  | zero =>
    intro q now x hx
    rw [pop_batch_zero] at hx
    cases hx
  | succ k ih =>
    intro q now x hx
    cases hp : heapPop q.messages with
    | none =>
      rw [pop_batch_of_empty hp] at hx
      cases hx
    | some p =>
      obtain ⟨t, rest⟩ := p
      by_cases hr : t.available_at ≤ now
      · rw [pop_batch_of_top_ready hp hr] at hx
        rcases List.mem_cons.mp hx with rfl | hx'
        · exact heapPop_mem hp
        · exact heapPop_rest_subset hp x (ih ⟨rest⟩ now x hx')
      · rw [pop_batch_of_top_not_ready hp hr] at hx
        cases hx

/-- Every message a batch returns was ready at the time of the call. -/
theorem pop_batch_ready : ∀ (n : Nat) (q : Queue) (now : Nat) (x : Message),
    x ∈ (q.pop_batch n now).1 → x.available_at ≤ now := by
  intro n
  induction n with
  | zero =>
    intro q now x hx
    rw [pop_batch_zero] at hx
    cases hx
  | succ k ih =>
    intro q now x hx
    cases hp : heapPop q.messages with
    | none =>
      rw [pop_batch_of_empty hp] at hx
      cases hx
    | some p =>
      obtain ⟨t, rest⟩ := p
      by_cases hr : t.available_at ≤ now
      · rw [pop_batch_of_top_ready hp hr] at hx
        rcases List.mem_cons.mp hx with rfl | hx'
        · exact hr
        · exact ih ⟨rest⟩ now x hx'
      · rw [pop_batch_of_top_not_ready hp hr] at hx
        cases hx

theorem pop_batch_length : ∀ (n : Nat) (q : Queue) (now : Nat),
    (q.pop_batch n now).1.length ≤ n := by
  intro n
  induction n with
  | zero =>
    intro q now
    rw [pop_batch_zero]
    exact Nat.le_refl 0
  | succ k ih =>
    intro q now
    cases hp : heapPop q.messages with
    | none =>
      rw [pop_batch_of_empty hp]
      exact Nat.zero_le _
    | some p =>
      obtain ⟨t, rest⟩ := p
      by_cases hr : t.available_at ≤ now
      · rw [pop_batch_of_top_ready hp hr]
        exact Nat.succ_le_succ (ih ⟨rest⟩ now)
      · rw [pop_batch_of_top_not_ready hp hr]
        exact Nat.zero_le _

/-- `pop_batch` computes exactly the sequence of `n` successive `pop` calls. -/
theorem pop_batch_eq_pops : ∀ (n : Nat) (q : Queue) (now : Nat),
    q.pop_batch n now = Queue.pops q n now := by
  intro n
  induction n with
  | zero =>
    intro q now
    rfl
  | succ k ih =>
    intro q now
    cases hp : heapPop q.messages with
    | none =>
      rw [pop_batch_of_empty hp, pops_succ_none (pop_of_empty hp)]
    | some p =>
      obtain ⟨t, rest⟩ := p
      by_cases hr : t.available_at ≤ now
      · rw [pop_batch_of_top_ready hp hr, pops_succ_some (pop_of_top_ready hp hr), ih]
      · rw [pop_batch_of_top_not_ready hp hr, pops_succ_none (pop_of_top_not_ready hp hr)]

/-! ### Claim theorems -/

/-- Claim C2 (evaluation at the failing input): the comparator does order an
earlier `available_at` on top (second conjunct), but on equal `available_at`
it places the *lower*-priority message on top of the heap: the priority-10
message compares `lt` against the priority-1 message, and the heap top among
the two is the priority-1 one — contrary to the claim and to the code's own
comment "Higher priority messages come first". -/
theorem comparator_tie_puts_low_priority_on_top :
    msgCmp ⟨2, "", 10, 5, 0, 3⟩ ⟨1, "", 1, 5, 0, 3⟩ = Ordering.lt
    ∧ msgCmp ⟨1, "", 1, 3, 0, 3⟩ ⟨2, "", 10, 7, 0, 3⟩ = Ordering.gt
    ∧ heapPeek [⟨2, "", 10, 5, 0, 3⟩, ⟨1, "", 1, 5, 0, 3⟩] = some ⟨1, "", 1, 5, 0, 3⟩ := by
  decide

/-- The queue of the spec's concrete scenario: id 1 (priority 1), id 2
(priority 10), id 3 (priority 5) pushed with delay 0 at instant 0. -/
def scenarioQueue : Queue :=
  (((⟨[]⟩ : Queue).push ⟨1, "", 1, 0, 0, 3⟩ 0 0).push ⟨2, "", 10, 0, 0, 3⟩ 0 0).push
    ⟨3, "", 5, 0, 0, 3⟩ 0 0

/-- Claim C1 (evaluation at the failing input): pushing id 1 (priority 1),
id 2 (priority 10), id 3 (priority 5), each with delay 0 at instant 0, then
popping four times at instant 0 yields id 1, then id 3, then id 2, then
empty — not the claimed id 2, id 3, id 1: on equal `available_at` the heap
delivers ascending priority. -/
theorem scenario_pops_ascending_priority :
    (Queue.pop scenarioQueue 0).1.map Message.id = some 1
    ∧ ((Queue.pop scenarioQueue 0).2.pop 0).1.map Message.id = some 3
    ∧ (((Queue.pop scenarioQueue 0).2.pop 0).2.pop 0).1.map Message.id = some 2
    ∧ ((((Queue.pop scenarioQueue 0).2.pop 0).2.pop 0).2.pop 0).1 = none
    ∧ (Queue.pop scenarioQueue 0).1.map Message.id ≠ some 2 := by
  decide

/-- Claim C3 counterexample: retrying a message with `retry_count = 0`,
`max_retries = 3` at instant 0 computes backoff `2^1 = 2` seconds, but the
re-inserted message carries `available_at = 4` — the call sleeps for the
backoff and then adds the backoff to the wake-up instant again — not the
claimed `0 + 2`. -/
theorem retry_ready_time_is_not_call_time_plus_backoff :
    ((⟨[]⟩ : Queue).retry ⟨1, "", 5, 0, 0, 3⟩ 0).queue.messages = [⟨1, "", 5, 4, 1, 3⟩]
    ∧ ((⟨[]⟩ : Queue).retry ⟨1, "", 5, 0, 0, 3⟩ 0).return_time = 2
    ∧ (4 : Nat) ≠ 0 + 2 ^ 1 := by
  decide

/-- Claim C3 amended: for a message below its retry budget, `retry`
increments `retry_count` by one, computes `backoff = 2^retry_count` seconds
(64-bit wrapping), suspends for `backoff` — resolving at `now + backoff` —
and re-inserts the message with `available_at = (now + backoff) + backoff`:
the message becomes ready `2·backoff` time units after the call, so the
blocking-sleep code is not observably equivalent to an immediate re-insert
with `available_at = now + backoff`. -/
theorem retry_reinserts_ready_after_double_backoff (q : Queue) (m : Message)
    (now : Nat) (h : m.retry_count < m.max_retries) :
    (q.retry m now).dead_letter = none
    ∧ (q.retry m now).return_time = now + 2 ^ (m.retry_count + 1) % 2 ^ 64
    ∧ (q.retry m now).queue.messages =
        { m with retry_count := m.retry_count + 1,
                 available_at := now + 2 ^ (m.retry_count + 1) % 2 ^ 64
                   + 2 ^ (m.retry_count + 1) % 2 ^ 64 } :: q.messages := by
  unfold Queue.retry
  rw [if_neg (by omega)]
  exact ⟨rfl, rfl, rfl⟩

theorem retry_reinserts_ready_after_double_backoff_witness :
    ((⟨[]⟩ : Queue).retry ⟨1, "", 5, 0, 0, 3⟩ 0).dead_letter = none
    ∧ ((⟨[]⟩ : Queue).retry ⟨1, "", 5, 0, 0, 3⟩ 0).return_time = 2
    ∧ ((⟨[]⟩ : Queue).retry ⟨1, "", 5, 0, 0, 3⟩ 0).queue.messages
        = [⟨1, "", 5, 4, 1, 3⟩] :=
  retry_reinserts_ready_after_double_backoff ⟨[]⟩ ⟨1, "", 5, 0, 0, 3⟩ 0 (by decide)

/-- Claim C9 counterexample: `retry_count = 63`, `max_retries = 64` (both
valid `u8` values) is accepted onto the retry path, yet `2^64` exceeds the
64-bit range, so the computation wraps (or panics in a debug build): the
modelled wrapped backoff is 0 and the message is re-inserted immediately
ready at `available_at = 0` with the call resolving at instant 0. -/
theorem backoff_wraps_within_u8_domain :
    (63 : Nat) < 64 ∧ (63 : Nat) < 256 ∧ (64 : Nat) < 256
    ∧ 2 ^ 64 ≤ 2 ^ (63 + 1)
    ∧ ((⟨[]⟩ : Queue).retry ⟨1, "", 0, 0, 63, 64⟩ 0).queue.messages
        = [⟨1, "", 0, 0, 64, 64⟩]
    ∧ ((⟨[]⟩ : Queue).retry ⟨1, "", 0, 0, 63, 64⟩ 0).return_time = 0 := by
  decide

/-- Claim C9 amended: the backoff computation is not capped; the 64-bit
evaluation of `2^retry_count` is exact (neither wraps nor panics) precisely
when the incremented retry count stays below 64 — stated through the instant
at which `retry` resolves, which equals `now + 2^(retry_count+1)` iff
`retry_count + 1 < 64`.  For larger counts, reachable in the `u8` domain,
the value wraps. -/
theorem backoff_exact_iff_exponent_below_64 (q : Queue) (m : Message) (now : Nat)
    (h : m.retry_count < m.max_retries) :
    (q.retry m now).return_time = now + 2 ^ (m.retry_count + 1)
      ↔ m.retry_count + 1 < 64 := by
  unfold Queue.retry
  rw [if_neg (by omega)]
  show now + 2 ^ (m.retry_count + 1) % 2 ^ 64 = now + 2 ^ (m.retry_count + 1) ↔ _
  constructor
  · intro he
    by_contra hge
    push_neg at hge
    have h1 : 2 ^ 64 ≤ 2 ^ (m.retry_count + 1) :=
      Nat.pow_le_pow_right (by omega) hge
    have h2 : 2 ^ (m.retry_count + 1) % 2 ^ 64 < 2 ^ 64 :=
      Nat.mod_lt _ (by positivity)
    omega
  · intro hlt
    have hfits : 2 ^ (m.retry_count + 1) < 2 ^ 64 :=
      Nat.pow_lt_pow_right (by omega) hlt
    rw [Nat.mod_eq_of_lt hfits]

theorem backoff_exact_iff_exponent_below_64_witness :
    ((⟨[]⟩ : Queue).retry ⟨1, "", 5, 0, 0, 3⟩ 0).return_time = 0 + 2 ^ (0 + 1) :=
  (backoff_exact_iff_exponent_below_64 ⟨[]⟩ ⟨1, "", 5, 0, 0, 3⟩ 0 (by decide)).mpr
    (by decide)

/-- Claim C4: `pop` returns no message exactly when the queue is empty or
the top element is not yet ready — leaving the queue unchanged in that case —
and otherwise removes and returns the top (a ready message, with the rest of
the heap as the new state); consequently a message pushed with delay
`d > 0` is never produced by `pop` or `pop_batch` before `d` has elapsed. -/
theorem pop_none_iff_empty_or_top_not_ready (q : Queue) (now : Nat) :
    ((q.pop now).1 = none ↔
        q.messages = [] ∨ ∃ t, heapPeek q.messages = some t ∧ now < t.available_at)
    ∧ ((q.pop now).1 = none → (q.pop now).2 = q)
    ∧ (∀ m, (q.pop now).1 = some m →
        heapPeek q.messages = some m ∧ m.available_at ≤ now
          ∧ q.messages.Perm (m :: (q.pop now).2.messages))
    ∧ (∀ (msg : Message) (d t : Nat), 0 < d → t < now + d →
        ((q.push msg d now).pop t).1 ≠ some { msg with available_at := now + d }
          ∧ ∀ n, { msg with available_at := now + d } ∉
              ((q.push msg d now).pop_batch n t).1) := by
  refine ⟨?_, ?_, ?_, ?_⟩
  · cases hp : heapPop q.messages with
    | none =>
      have hnil := (heapPop_eq_none_iff q.messages).mp hp
      rw [pop_of_empty hp]
      simp [hnil]
    | some p =>
      obtain ⟨t, rest⟩ := p
      have hne : q.messages ≠ [] := by
        intro hq
        rw [hq] at hp
        cases hp
      by_cases hr : t.available_at ≤ now
      · rw [pop_of_top_ready hp hr]
        simp only [heapPeek, hp, Option.map_some']
        constructor
        · intro hc
          exact absurd hc (by simp)
        · rintro (hq | ⟨t', ht', hlt⟩)
          · exact absurd hq hne
          · simp only [Option.some.injEq] at ht'
            subst ht'
            exact absurd hr (by omega)
      · rw [pop_of_top_not_ready hp hr]
        simp only [heapPeek, hp, Option.map_some']
        constructor
        · intro _
          exact Or.inr ⟨t, rfl, by omega⟩
        · intro _
          trivial
  · intro h
    cases hp : heapPop q.messages with
    | none => rw [pop_of_empty hp]
    | some p =>
      obtain ⟨t, rest⟩ := p
      by_cases hr : t.available_at ≤ now
      · rw [pop_of_top_ready hp hr] at h
        exact absurd h (by simp)
      · rw [pop_of_top_not_ready hp hr]
  · intro m h
    obtain ⟨hp, hready⟩ := pop_elim h
    exact ⟨by simp [heapPeek, hp], hready, heapPop_perm hp⟩
  · intro msg d t hd ht
    constructor
    · intro hc
      have hav := pop_some_ready hc
      simp only at hav
      omega
    · intro n hc
      have hav := pop_batch_ready n _ t _ hc
      simp only at hav
      omega

theorem pop_none_iff_empty_or_top_not_ready_witness :
    (((⟨[]⟩ : Queue).push ⟨1, "", 5, 0, 0, 3⟩ 1 0).pop 0).1
        ≠ some ⟨1, "", 5, 0 + 1, 0, 3⟩ :=
  ((pop_none_iff_empty_or_top_not_ready ⟨[]⟩ 0).2.2.2 ⟨1, "", 5, 0, 0, 3⟩ 1 0
    (by decide) (by decide)).1

/-- Claim C5: `pop_batch batch_size` returns at most `batch_size` messages,
every one of them ready at the time of the call, and the result (batch and
final state) is exactly what `batch_size` successive `pop` calls produce, in
the same relative order (`Queue.pops` is the spec-side description of such a
sequence); stopping at the first absent or non-ready top is `pop`'s own
per-step decision, so no deeper element is ever scanned. -/
theorem pop_batch_refines_sequential_pops (q : Queue) (batch_size now : Nat) :
    (q.pop_batch batch_size now).1.length ≤ batch_size
    ∧ q.pop_batch batch_size now = Queue.pops q batch_size now
    ∧ ∀ x ∈ (q.pop_batch batch_size now).1, x.available_at ≤ now :=
  ⟨pop_batch_length batch_size q now, pop_batch_eq_pops batch_size q now,
    fun x hx => pop_batch_ready batch_size q now x hx⟩

theorem pop_batch_refines_sequential_pops_witness :
    ((⟨[]⟩ : Queue).pop_batch 3 0).1.length ≤ 3 :=
  (pop_batch_refines_sequential_pops ⟨[]⟩ 3 0).1

/-- Claim C6: a message whose `retry_count` has reached `max_retries` is
routed to the dead-letter sink, the heap is left untouched (so, unless an
equal message was already indexed, no later `pop` or `pop_batch` ever
produces it), and the call returns `Ok` — a successful terminal disposition,
not an error. -/
theorem retry_exhausted_dead_letters_and_succeeds (q : Queue) (m : Message)
    (now : Nat) (h : m.max_retries ≤ m.retry_count) :
    q.retryR m now =
        Except.ok { queue := q, dead_letter := some m, return_time := now }
    ∧ (m ∉ q.messages →
        (∀ t, ((q.retry m now).queue.pop t).1 ≠ some m)
          ∧ ∀ n t, m ∉ ((q.retry m now).queue.pop_batch n t).1) := by
  have hq : q.retry m now = { queue := q, dead_letter := some m, return_time := now } := by
    unfold Queue.retry
    rw [if_pos h]
  refine ⟨by unfold Queue.retryR; rw [hq], ?_⟩
  intro hmem
  rw [hq]
  constructor
  · intro t hc
    exact hmem (pop_mem hc)
  · intro n t hc
    exact hmem (pop_batch_mem n q t m hc)

theorem retry_exhausted_dead_letters_and_succeeds_witness :
    (⟨[]⟩ : Queue).retryR ⟨9, "", 1, 0, 3, 3⟩ 5 =
      Except.ok { queue := ⟨[]⟩, dead_letter := some ⟨9, "", 1, 0, 3, 3⟩,
                  return_time := 5 } :=
  (retry_exhausted_dead_letters_and_succeeds ⟨[]⟩ ⟨9, "", 1, 0, 3, 3⟩ 5 (by decide)).1

/-- Claim C7: `acknowledge` removes exactly the indexed messages whose id is
the given one — what remains carries a different id, every message with a
different id survives, every indexed message either survives or carried the
id — it never errors (also for ids never enqueued), and it is idempotent. -/
theorem acknowledge_removes_exactly_id_and_is_idempotent (q : Queue)
    (message_id : Nat) :
    q.acknowledgeR message_id = Except.ok (q.acknowledge message_id)
    ∧ (∀ m ∈ (q.acknowledge message_id).messages, m.id ≠ message_id)
    ∧ (∀ m ∈ q.messages, m.id ≠ message_id → m ∈ (q.acknowledge message_id).messages)
    ∧ (∀ m ∈ q.messages, m ∈ (q.acknowledge message_id).messages ∨ m.id = message_id)
    ∧ (q.acknowledge message_id).acknowledge message_id = q.acknowledge message_id := by
  refine ⟨rfl, ?_, ?_, ?_, ?_⟩
  · intro m hm
    have := (List.mem_filter.mp hm).2
    simpa using this
  · intro m hm hid
    exact List.mem_filter.mpr ⟨hm, by simpa using hid⟩
  · intro m hm
    by_cases hid : m.id = message_id
    · exact Or.inr hid
    · exact Or.inl (List.mem_filter.mpr ⟨hm, by simpa using hid⟩)
  · unfold Queue.acknowledge
    congr 1
    apply List.filter_eq_self.mpr
    intro a ha
    exact (List.mem_filter.mp ha).2

theorem acknowledge_removes_exactly_id_and_is_idempotent_witness :
    ((⟨[⟨1, "", 1, 0, 0, 3⟩, ⟨2, "", 2, 0, 0, 3⟩]⟩ : Queue).acknowledge 1).acknowledge 1
      = (⟨[⟨1, "", 1, 0, 0, 3⟩, ⟨2, "", 2, 0, 0, 3⟩]⟩ : Queue).acknowledge 1 :=
  (acknowledge_removes_exactly_id_and_is_idempotent
    ⟨[⟨1, "", 1, 0, 0, 3⟩, ⟨2, "", 2, 0, 0, 3⟩]⟩ 1).2.2.2.2

/-- Claim C8: `retry` increments only under the strict pre-check
`retry_count < max_retries`, and the check and increment form one atomic
step of the model: every message in the resulting queue either was already
indexed or is the single re-insertion, whose new `retry_count` is
`retry_count + 1 ≤ max_retries`; hence the invariant
`retry_count ≤ max_retries` on indexed messages is preserved by `retry`. -/
theorem retry_increments_only_below_budget (q : Queue) (m : Message) (now : Nat) :
    (∀ x ∈ (q.retry m now).queue.messages,
        x ∈ q.messages ∨
          (m.retry_count < m.max_retries ∧ x.retry_count = m.retry_count + 1
            ∧ x.retry_count ≤ x.max_retries))
    ∧ ((∀ x ∈ q.messages, x.retry_count ≤ x.max_retries) →
        ∀ x ∈ (q.retry m now).queue.messages, x.retry_count ≤ x.max_retries) := by
  by_cases h : m.retry_count ≥ m.max_retries
  · have hq : q.retry m now =
        { queue := q, dead_letter := some m, return_time := now } := by
      unfold Queue.retry
      rw [if_pos h]
    rw [hq]
    exact ⟨fun x hx => Or.inl hx, fun hinv x hx => hinv x hx⟩
  · push_neg at h
    have hq : (q.retry m now).queue.messages =
        { m with retry_count := m.retry_count + 1,
                 available_at := now + 2 ^ (m.retry_count + 1) % 2 ^ 64
                   + 2 ^ (m.retry_count + 1) % 2 ^ 64 } :: q.messages := by
      unfold Queue.retry
      rw [if_neg (by omega)]
    rw [hq]
    constructor
    · intro x hx
      rcases List.mem_cons.mp hx with rfl | hx'
      · exact Or.inr ⟨h, rfl, Nat.succ_le_of_lt h⟩
      · exact Or.inl hx'
    · intro hinv x hx
      rcases List.mem_cons.mp hx with rfl | hx'
      · exact Nat.succ_le_of_lt h
      · exact hinv x hx'

theorem retry_increments_only_below_budget_witness :
    (⟨1, "", 5, 4, 1, 3⟩ : Message).retry_count
      ≤ (⟨1, "", 5, 4, 1, 3⟩ : Message).max_retries :=
  (retry_increments_only_below_budget ⟨[]⟩ ⟨1, "", 5, 0, 0, 3⟩ 0).2
    (by simp) ⟨1, "", 5, 4, 1, 3⟩ (by decide)

/-- Claim C10: `push_to_dead_letter` leaves the queue's index entirely
unchanged and always returns success; consequently `retry` on a message that
has exhausted its budget leaves the queue state identical to the state
before the call. -/
theorem dead_letter_is_a_no_op_on_the_index (q : Queue) (m : Message) (now : Nat) :
    q.push_to_dead_letter m = Except.ok q
    ∧ (m.max_retries ≤ m.retry_count →
        q.retry m now = { queue := q, dead_letter := some m, return_time := now }) := by
  refine ⟨rfl, fun h => ?_⟩
  unfold Queue.retry
  rw [if_pos h]

theorem dead_letter_is_a_no_op_on_the_index_witness :
    (⟨[]⟩ : Queue).retry ⟨7, "", 2, 0, 4, 4⟩ 9 =
      { queue := ⟨[]⟩, dead_letter := some ⟨7, "", 2, 0, 4, 4⟩, return_time := 9 } :=
  (dead_letter_is_a_no_op_on_the_index ⟨[]⟩ ⟨7, "", 2, 0, 4, 4⟩ 9).2 (by decide)
